import Mathlib

/-!
# Verification of the DotsAndBlox core (Dots and Boxes)

Shallow embedding of the Rules Engine (`src/scripts/game-logic.js`) and the
state-serialization / message-handling parts of the Session Coordinator
(`src/scripts/game-controller.js`), together with proofs of the specified
properties.

Modelling conventions:
* JS `Map` objects keyed by the string `"row,col"` are modelled as association
  lists keyed by the pair `(row, col)` (`LineMap`), with `Map.has` / `Map.set`
  semantics (insertion order preserved, `set` on a present key updates in
  place).
* Player numbers 1 and 2 are the inductive `Player`; the `winner` field keeps
  the JS encoding `null / 0 / 1 / 2` as `Option Nat`.
* Coordinates and the grid size are `Int` (JS numbers used as integers; the
  bounds checks `row >= 0` etc. are meaningful on `Int`).
* The in-place mutation of `applyMove` is modelled by returning the new state
  alongside the returned list of completed boxes.
-/

/-- Line orientation: the JS code dispatches on the string `'horizontal'`
(everything else is treated as vertical). -/
inductive LineType where
  | horizontal
  | vertical
deriving DecidableEq, Repr

/-- Player 1 or player 2. -/
inductive Player where
  | one
  | two
deriving DecidableEq, Repr

/-- The JS expression `player === 1 ? 2 : 1`. -/
def Player.other : Player → Player
  | .one => .two
  | .two => .one

/-- `scores` record: `{ player1, player2 }`. -/
structure Scores where
  player1 : Nat
  player2 : Nat
deriving DecidableEq, Repr

/-- The JS statement `gameState.scores[player]++` for `player` 1 or 2. -/
def addScore (sc : Scores) (p : Player) : Scores :=
  match p with
  | .one => { sc with player1 := sc.player1 + 1 }
  | .two => { sc with player2 := sc.player2 + 1 }

/-- A completed box entry `{row, col, owner}` pushed onto `gameState.boxes`. -/
structure Box where
  row : Int
  col : Int
  owner : Player
deriving DecidableEq, Repr

/-- A JS `Map` from `"row,col"` keys to the player who drew the line,
modelled as an insertion-ordered association list. -/
abbrev LineMap : Type := List ((Int × Int) × Player)

/-- `Map.prototype.has`. -/
def LineMap.hasKey (m : LineMap) (k : Int × Int) : Bool :=
  m.any fun e => decide (e.1 = k)

/-- `Map.prototype.set`: update in place if the key is present (insertion
order kept), otherwise append a fresh entry. -/
def LineMap.setKey (m : LineMap) (k : Int × Int) (v : Player) : LineMap :=
  if LineMap.hasKey m k then
    m.map fun e => if e.1 = k then (k, v) else e
  else
    m ++ [(k, v)]

/-- Key list of the map, in insertion order (`Array.from(m.keys())`). -/
def LineMap.keyList (m : LineMap) : List (Int × Int) :=
  m.map Prod.fst

/-- The mutable game-state aggregate created by `createGameState`. -/
structure GameState where
  gridSize : Int
  horizontalLines : LineMap
  verticalLines : LineMap
  boxes : List Box
  currentPlayer : Player
  scores : Scores
  gameOver : Bool
  winner : Option Nat
deriving DecidableEq, Repr

/-- `createGameState(gridSize)` (game-logic.js). -/
def createGameState (gridSize : Int) : GameState :=
  { gridSize := gridSize
    horizontalLines := ([] : List _)
    verticalLines := ([] : List _)
    boxes := []
    currentPlayer := .one
    scores := { player1 := 0, player2 := 0 }
    gameOver := false
    winner := none }

/-- `isValidMove(lineType, row, col, gameState)` (game-logic.js). -/
def isValidMove (lineType : LineType) (row col : Int) (gameState : GameState) : Bool :=
  let lines := match lineType with
    | .horizontal => gameState.horizontalLines
    | .vertical => gameState.verticalLines
  if LineMap.hasKey lines (row, col) then false
  else
    match lineType with
    | .horizontal =>
        decide (0 ≤ row) && decide (row < gameState.gridSize) &&
          decide (0 ≤ col) && decide (col < gameState.gridSize - 1)
    | .vertical =>
        decide (0 ≤ row) && decide (row < gameState.gridSize - 1) &&
          decide (0 ≤ col) && decide (col < gameState.gridSize)

/-- `getAdjacentBoxes(lineType, row, col, gridSize)` (game-logic.js): the up
to two boxes a new line can complete, above/left pushed before below/right. -/
def getAdjacentBoxes (lineType : LineType) (row col gridSize : Int) : List (Int × Int) :=
  match lineType with
  | .horizontal =>
      (if 0 < row then [(row - 1, col)] else []) ++
        (if row < gridSize - 1 then [(row, col)] else [])
  | .vertical =>
      (if 0 < col then [(row, col - 1)] else []) ++
        (if col < gridSize - 1 then [(row, col)] else [])

/-- `isBoxComplete(boxRow, boxCol, gameState)` (game-logic.js): all four
bounding lines are present. -/
def isBoxComplete (boxRow boxCol : Int) (gameState : GameState) : Bool :=
  LineMap.hasKey gameState.horizontalLines (boxRow, boxCol) &&
    LineMap.hasKey gameState.horizontalLines (boxRow + 1, boxCol) &&
    LineMap.hasKey gameState.verticalLines (boxRow, boxCol) &&
    LineMap.hasKey gameState.verticalLines (boxRow, boxCol + 1)

/-- `checkCompletedBoxes(lineType, row, col, gameState)` (game-logic.js). -/
def checkCompletedBoxes (lineType : LineType) (row col : Int) (gameState : GameState) :
    List (Int × Int) :=
  (getAdjacentBoxes lineType row col gameState.gridSize).filter fun b =>
    isBoxComplete b.1 b.2 gameState

/-- Step 1 of `applyMove`: add the line to the appropriate map. -/
def insertLine (lineType : LineType) (row col : Int) (player : Player)
    (gameState : GameState) : GameState :=
  match lineType with
  | .horizontal =>
      { gameState with
          horizontalLines := LineMap.setKey gameState.horizontalLines (row, col) player }
  | .vertical =>
      { gameState with
          verticalLines := LineMap.setKey gameState.verticalLines (row, col) player }

/-- Body of the `completedBoxes.forEach` loop of `applyMove`: push the box
with its owner and increment that player's score. -/
def awardBox (player : Player) (st : GameState) (b : Int × Int) : GameState :=
  { st with
      boxes := st.boxes ++ [{ row := b.1, col := b.2, owner := player }]
      scores := addScore st.scores player }

/-- `applyMove(lineType, row, col, player, gameState)` (game-logic.js).
Returns the array of completed boxes together with the mutated state. -/
def applyMove (lineType : LineType) (row col : Int) (player : Player)
    (gameState : GameState) : List (Int × Int) × GameState :=
  let s1 := insertLine lineType row col player gameState
  let completedBoxes := checkCompletedBoxes lineType row col s1
  let s2 := completedBoxes.foldl (awardBox player) s1
  let totalBoxes := (gameState.gridSize - 1) ^ 2
  let s3 :=
    if (s2.boxes.length : Int) = totalBoxes then
      { s2 with
          gameOver := true
          winner := some (if s2.scores.player1 > s2.scores.player2 then 1
            else if s2.scores.player2 > s2.scores.player1 then 2
            else 0) }
    else s2
  let s4 :=
    { s3 with
        currentPlayer := if completedBoxes.length = 0 then player.other else player }
  (completedBoxes, s4)

example : (applyMove .horizontal 0 0 .one (createGameState 3)).1 = [] := by decide

example : (applyMove .horizontal 0 0 .one (createGameState 3)).2.currentPlayer = .two := by
  decide

/-!
## Session Coordinator / Replication Protocol (game-controller.js)
-/

/-- The wire form of a game state produced by `serializeGameState`: the two
`Map`s are replaced by their entry arrays, every other field is kept as-is. -/
structure SerializedGameState where
  gridSize : Int
  horizontalLines : List ((Int × Int) × Player)
  verticalLines : List ((Int × Int) × Player)
  boxes : List Box
  currentPlayer : Player
  scores : Scores
  gameOver : Bool
  winner : Option Nat
deriving DecidableEq, Repr

/-- `serializeGameState(state)` (game-controller.js): spread the state and
convert the maps with `Array.from(state.map.entries())`. -/
def serializeGameState (state : GameState) : SerializedGameState :=
  { gridSize := state.gridSize
    horizontalLines := state.horizontalLines
    verticalLines := state.verticalLines
    boxes := state.boxes
    currentPlayer := state.currentPlayer
    scores := state.scores
    gameOver := state.gameOver
    winner := state.winner }

/-- `new Map(entries)`: build a map by `set`-inserting the entries in order
into an empty map (later duplicates of a key overwrite earlier ones). -/
def mapOfEntries (entries : List ((Int × Int) × Player)) : LineMap :=
  entries.foldl (fun m e => LineMap.setKey m e.1 e.2) []

/-- `deserializeGameState(data)` (game-controller.js): spread the wire record
and rebuild the two maps with `new Map(...)`. -/
def deserializeGameState (data : SerializedGameState) : GameState :=
  { gridSize := data.gridSize
    horizontalLines := mapOfEntries data.horizontalLines
    verticalLines := mapOfEntries data.verticalLines
    boxes := data.boxes
    currentPlayer := data.currentPlayer
    scores := data.scores
    gameOver := data.gameOver
    winner := data.winner }

/-- Outbound network message relevant to move handling: the
`moveResult{success, gameState, completedBoxes?}` record sent by the host
(`completedBoxes` is only attached on success) and the `move{lineType,row,col}`
request sent by the guest. -/
inductive NetMessage where
  | moveResult (success : Bool) (gameState : SerializedGameState)
      (completedBoxes : Option (List (Int × Int)))
  | moveRequest (lineType : LineType) (row col : Int)
deriving DecidableEq

/-- The `case 'move'` branch of `handleNetworkMessage` (game-controller.js)
as run by the host (`myPlayer === 1`): validate the guest's move; if valid,
apply it with actor player 2 and answer `moveResult{success:true}` with the
serialized new state and the completed boxes; otherwise answer
`moveResult{success:false}` with the serialized (unchanged) state.
Returns the host's game state after handling together with the reply. -/
def hostHandleMoveMessage (lineType : LineType) (row col : Int) (gameState : GameState) :
    GameState × NetMessage :=
  if isValidMove lineType row col gameState then
    let result := applyMove lineType row col .two gameState
    (result.2, .moveResult true (serializeGameState result.2) (some result.1))
  else
    (gameState, .moveResult false (serializeGameState gameState) none)

/-- What the guest-side `handleMove` path does with a click, beyond sending. -/
inductive GuestOutcome where
  | ignoreGameOver
  | rejectNotYourTurn
  | rejectInvalid
  | sendMoveRequest (msg : NetMessage)
deriving DecidableEq

/-- `handleMove` → `handleOnlineMove` (game-controller.js) for the guest
(`gameMode === 'online'`, `myPlayer === 2`): the `gameOver` gate of
`handleMove`, then the turn gate, then validation; a passing move is only
sent to the host as a `move` request. Returns the guest's game state after
the call together with the outcome. Only `sendMoveRequest` produces network
traffic; the rejection outcomes are the local `showFeedback` calls. -/
def guestHandleMove (lineType : LineType) (row col : Int) (gameState : GameState) :
    GameState × GuestOutcome :=
  if gameState.gameOver then
    (gameState, .ignoreGameOver)
  else if gameState.currentPlayer ≠ .two then
    (gameState, .rejectNotYourTurn)
  else if ¬ isValidMove lineType row col gameState then
    (gameState, .rejectInvalid)
  else
    (gameState, .sendMoveRequest (.moveRequest lineType row col))

/-!
## Reachable states

A state is reachable when it arises from `createGameState` by a sequence of
`applyMove` calls, each validated by `isValidMove` first (every call site in
the repository validates before applying). The acting player is arbitrary:
the host applies guest moves with actor 2 without a turn gate.
-/

/-- States reachable from `createGameState N` by validated moves. -/
inductive Reachable (N : Int) : GameState → Prop where
  | init : Reachable N (createGameState N)
  | step {s : GameState} (lineType : LineType) (row col : Int) (player : Player) :
      Reachable N s → isValidMove lineType row col s = true →
      Reachable N (applyMove lineType row col player s).2

/-!
## Association-list map lemmas
-/

theorem LineMap.hasKey_iff (m : LineMap) (k : Int × Int) :
    LineMap.hasKey m k = true ↔ k ∈ LineMap.keyList m := by
  simp [LineMap.hasKey, LineMap.keyList, List.any_eq_true, List.mem_map]

theorem LineMap.hasKey_false_iff (m : LineMap) (k : Int × Int) :
    LineMap.hasKey m k = false ↔ k ∉ LineMap.keyList m := by
  rw [← Bool.not_eq_true, not_iff_not]
  exact LineMap.hasKey_iff m k

theorem LineMap.keyList_setKey (m : LineMap) (k : Int × Int) (v : Player) :
    LineMap.keyList (LineMap.setKey m k v) =
      if LineMap.hasKey m k then LineMap.keyList m else LineMap.keyList m ++ [k] := by
  unfold LineMap.setKey
  split
  · simp only [LineMap.keyList, List.map_map]
    apply List.map_congr_left
    intro e _
    by_cases h : e.1 = k <;> simp [h]
  · simp [LineMap.keyList]

theorem LineMap.hasKey_setKey_iff (m : LineMap) (k k' : Int × Int) (v : Player) :
    LineMap.hasKey (LineMap.setKey m k v) k' = true ↔
      (LineMap.hasKey m k' = true ∨ k' = k) := by
  rw [LineMap.hasKey_iff, LineMap.keyList_setKey]
  split
  · rename_i h
    rw [← LineMap.hasKey_iff]
    constructor
    · exact Or.inl
    · rintro (hm | rfl)
      · exact hm
      · exact h
  · simp [List.mem_append, ← LineMap.hasKey_iff]

theorem LineMap.hasKey_setKey_of_hasKey {m : LineMap} {k' : Int × Int}
    (k : Int × Int) (v : Player) (h : LineMap.hasKey m k' = true) :
    LineMap.hasKey (LineMap.setKey m k v) k' = true :=
  (LineMap.hasKey_setKey_iff m k k' v).mpr (Or.inl h)

theorem LineMap.keyList_nodup_setKey {m : LineMap} (k : Int × Int) (v : Player)
    (h : (LineMap.keyList m).Nodup) : (LineMap.keyList (LineMap.setKey m k v)).Nodup := by
  rw [LineMap.keyList_setKey]
  split
  · exact h
  · rename_i hk
    have hk' : k ∉ LineMap.keyList m := (LineMap.hasKey_false_iff m k).mp (by simpa using hk)
    simp [List.nodup_append, h, hk']

theorem LineMap.hasKey_append (m₁ m₂ : LineMap) (k : Int × Int) :
    LineMap.hasKey (m₁ ++ m₂) k = (LineMap.hasKey m₁ k || LineMap.hasKey m₂ k) := by
  simp [LineMap.hasKey, List.any_append]

theorem LineMap.setKey_of_not_hasKey {m : LineMap} {k : Int × Int} (v : Player)
    (h : LineMap.hasKey m k = false) : LineMap.setKey m k v = m ++ [(k, v)] := by
  unfold LineMap.setKey
  simp [h]

/-- `new Map(entries)` rebuilt from a map whose keys are distinct gives back
the same entry list. -/
theorem mapOfEntries_eq_self {l : LineMap} (h : (LineMap.keyList l).Nodup) :
    mapOfEntries l = l := by
  suffices H : ∀ (l m : LineMap), (LineMap.keyList l).Nodup →
      (∀ k ∈ LineMap.keyList l, LineMap.hasKey m k = false) →
      l.foldl (fun m e => LineMap.setKey m e.1 e.2) m = m ++ l by
    have := H l [] h (by intro k _; rfl)
    simpa [mapOfEntries] using this
  intro l
  induction l with
  | nil => intro m _ _; simp
  | cons e t ih =>
      intro m hnd hdisj
      have hndc : (e.1 :: LineMap.keyList t).Nodup := hnd
      have hnotmem : e.1 ∉ LineMap.keyList t := (List.nodup_cons.mp hndc).1
      have he : LineMap.hasKey m e.1 = false := hdisj e.1 (List.mem_cons_self _ _)
      have hstep : LineMap.setKey m e.1 e.2 = m ++ [(e.1, e.2)] :=
        LineMap.setKey_of_not_hasKey e.2 he
      have hnd' : (LineMap.keyList t).Nodup := (List.nodup_cons.mp hndc).2
      have hdisj' : ∀ k ∈ LineMap.keyList t, LineMap.hasKey (m ++ [(e.1, e.2)]) k = false := by
        intro k hk
        have hk₁ : LineMap.hasKey m k = false := hdisj k (List.mem_cons_of_mem _ hk)
        have hk₂ : ¬ e.1 = k := fun hke => hnotmem (by rw [hke]; exact hk)
        rw [LineMap.hasKey_append, hk₁]
        simp [LineMap.hasKey, hk₂]
      calc (e :: t).foldl (fun m e => LineMap.setKey m e.1 e.2) m
          = t.foldl (fun m e => LineMap.setKey m e.1 e.2) (LineMap.setKey m e.1 e.2) := by
            simp [List.foldl_cons]
        _ = t.foldl (fun m e => LineMap.setKey m e.1 e.2) (m ++ [(e.1, e.2)]) := by rw [hstep]
        _ = (m ++ [(e.1, e.2)]) ++ t := ih (m ++ [(e.1, e.2)]) hnd' hdisj'
        _ = m ++ e :: t := by simp

/-!
## Characterization of `isValidMove`, `getAdjacentBoxes`, `isBoxComplete`
-/

theorem isValidMove_horizontal_iff (row col : Int) (s : GameState) :
    isValidMove .horizontal row col s = true ↔
      (LineMap.hasKey s.horizontalLines (row, col) = false ∧
        0 ≤ row ∧ row < s.gridSize ∧ 0 ≤ col ∧ col < s.gridSize - 1) := by
  unfold isValidMove
  dsimp only
  split
  · rename_i h
    simp [h]
  · rename_i h
    simp only [Bool.not_eq_true] at h
    simp [h, and_assoc]

theorem isValidMove_vertical_iff (row col : Int) (s : GameState) :
    isValidMove .vertical row col s = true ↔
      (LineMap.hasKey s.verticalLines (row, col) = false ∧
        0 ≤ row ∧ row < s.gridSize - 1 ∧ 0 ≤ col ∧ col < s.gridSize) := by
  unfold isValidMove
  dsimp only
  split
  · rename_i h
    simp [h]
  · rename_i h
    simp only [Bool.not_eq_true] at h
    simp [h, and_assoc]

/-- `isValidMove` reads only the line maps and the grid size, never
`currentPlayer`. -/
theorem isValidMove_ignores_currentPlayer (lineType : LineType) (row col : Int)
    (s : GameState) (p : Player) :
    isValidMove lineType row col { s with currentPlayer := p } =
      isValidMove lineType row col s := by
  cases lineType <;> rfl

theorem getAdjacentBoxes_nodup (lineType : LineType) (row col gridSize : Int) :
    (getAdjacentBoxes lineType row col gridSize).Nodup := by
  unfold getAdjacentBoxes
  cases lineType with
  | horizontal =>
      by_cases h₁ : 0 < row <;> by_cases h₂ : row < gridSize - 1 <;>
        simp [h₁, h₂]
  | vertical =>
      by_cases h₁ : 0 < col <;> by_cases h₂ : col < gridSize - 1 <;>
        simp [h₁, h₂]

theorem mem_getAdjacentBoxes_horizontal {b : Int × Int} {row col gridSize : Int}
    (h : b ∈ getAdjacentBoxes .horizontal row col gridSize) :
    (0 < row ∧ b = (row - 1, col)) ∨ (row < gridSize - 1 ∧ b = (row, col)) := by
  unfold getAdjacentBoxes at h
  dsimp only at h
  rw [List.mem_append] at h
  rcases h with h | h <;> [skip; skip] <;>
    · split at h <;> simp_all

theorem mem_getAdjacentBoxes_vertical {b : Int × Int} {row col gridSize : Int}
    (h : b ∈ getAdjacentBoxes .vertical row col gridSize) :
    (0 < col ∧ b = (row, col - 1)) ∨ (col < gridSize - 1 ∧ b = (row, col)) := by
  unfold getAdjacentBoxes at h
  dsimp only at h
  rw [List.mem_append] at h
  rcases h with h | h <;> [skip; skip] <;>
    · split at h <;> simp_all

/-- Candidate boxes of a valid move lie in the box range `[0, N-1) × [0, N-1)`. -/
theorem mem_getAdjacentBoxes_range {lineType : LineType} {b : Int × Int} {row col : Int}
    {s : GameState} (hv : isValidMove lineType row col s = true)
    (hb : b ∈ getAdjacentBoxes lineType row col s.gridSize) :
    0 ≤ b.1 ∧ b.1 < s.gridSize - 1 ∧ 0 ≤ b.2 ∧ b.2 < s.gridSize - 1 := by
  cases lineType with
  | horizontal =>
      obtain ⟨-, h₁, h₂, h₃, h₄⟩ := (isValidMove_horizontal_iff row col s).mp hv
      rcases mem_getAdjacentBoxes_horizontal hb with ⟨hr, rfl⟩ | ⟨hr, rfl⟩ <;>
        constructor <;> simp <;> omega
  | vertical =>
      obtain ⟨-, h₁, h₂, h₃, h₄⟩ := (isValidMove_vertical_iff row col s).mp hv
      rcases mem_getAdjacentBoxes_vertical hb with ⟨hr, rfl⟩ | ⟨hr, rfl⟩ <;>
        constructor <;> simp <;> omega

/-- Before a valid move is applied, none of its candidate boxes is complete:
the line being drawn is one of each candidate's four bounding lines, and it is
absent. -/
theorem adjacent_not_complete {lineType : LineType} {row col : Int} {s : GameState}
    (hv : isValidMove lineType row col s = true) :
    ∀ b ∈ getAdjacentBoxes lineType row col s.gridSize,
      isBoxComplete b.1 b.2 s = false := by
  intro b hb
  cases lineType with
  | horizontal =>
      have habs : LineMap.hasKey s.horizontalLines (row, col) = false :=
        ((isValidMove_horizontal_iff row col s).mp hv).1
      rcases mem_getAdjacentBoxes_horizontal hb with ⟨-, rfl⟩ | ⟨-, rfl⟩ <;>
        · unfold isBoxComplete
          simp only []
          have : row - 1 + 1 = row := by omega
          simp [this, habs]
  | vertical =>
      have habs : LineMap.hasKey s.verticalLines (row, col) = false :=
        ((isValidMove_vertical_iff row col s).mp hv).1
      rcases mem_getAdjacentBoxes_vertical hb with ⟨-, rfl⟩ | ⟨-, rfl⟩ <;>
        · unfold isBoxComplete
          simp only []
          have : col - 1 + 1 = col := by omega
          simp [this, habs]

/-!
## Unfolding `applyMove`
-/

/-- `n`-fold `addScore`, in the order the `forEach` loop performs it. -/
def addScoreN (sc : Scores) (p : Player) : Nat → Scores
  | 0 => sc
  | n + 1 => addScoreN (addScore sc p) p n

theorem addScoreN_sum (sc : Scores) (p : Player) (n : Nat) :
    (addScoreN sc p n).player1 + (addScoreN sc p n).player2 =
      sc.player1 + sc.player2 + n := by
  induction n generalizing sc with
  | zero => rfl
  | succ n ih =>
      show (addScoreN (addScore sc p) p n).player1 + (addScoreN (addScore sc p) p n).player2 = _
      rw [ih (addScore sc p)]
      cases p <;> simp [addScore] <;> omega

theorem foldl_awardBox (p : Player) (cb : List (Int × Int)) (st : GameState) :
    cb.foldl (awardBox p) st =
      { st with
          boxes := st.boxes ++ cb.map (fun b => { row := b.1, col := b.2, owner := p })
          scores := addScoreN st.scores p cb.length } := by
  induction cb generalizing st with
  | nil => simp [addScoreN]
  | cons b t ih =>
      rw [List.foldl_cons, ih]
      simp [awardBox, addScoreN]

theorem insertLine_gridSize (lineType : LineType) (row col : Int) (p : Player)
    (s : GameState) : (insertLine lineType row col p s).gridSize = s.gridSize := by
  cases lineType <;> rfl

theorem insertLine_boxes (lineType : LineType) (row col : Int) (p : Player)
    (s : GameState) : (insertLine lineType row col p s).boxes = s.boxes := by
  cases lineType <;> rfl

theorem insertLine_scores (lineType : LineType) (row col : Int) (p : Player)
    (s : GameState) : (insertLine lineType row col p s).scores = s.scores := by
  cases lineType <;> rfl

theorem insertLine_gameOver (lineType : LineType) (row col : Int) (p : Player)
    (s : GameState) : (insertLine lineType row col p s).gameOver = s.gameOver := by
  cases lineType <;> rfl

theorem insertLine_winner (lineType : LineType) (row col : Int) (p : Player)
    (s : GameState) : (insertLine lineType row col p s).winner = s.winner := by
  cases lineType <;> rfl

theorem applyMove_fst (lineType : LineType) (row col : Int) (p : Player) (s : GameState) :
    (applyMove lineType row col p s).1 =
      checkCompletedBoxes lineType row col (insertLine lineType row col p s) := rfl

/-- `applyMove` with its intermediate mutations flattened into a single
record expression. -/
theorem applyMove_snd (lineType : LineType) (row col : Int) (p : Player) (s : GameState) :
    (applyMove lineType row col p s).2 =
      (let s1 := insertLine lineType row col p s
       let cb := checkCompletedBoxes lineType row col s1
       let sc := addScoreN s1.scores p cb.length
       { s1 with
          boxes := s1.boxes ++ cb.map (fun b => { row := b.1, col := b.2, owner := p })
          scores := sc
          gameOver :=
            if ((s1.boxes.length + cb.length : Nat) : Int) = (s.gridSize - 1) ^ 2 then true
            else s1.gameOver
          winner :=
            if ((s1.boxes.length + cb.length : Nat) : Int) = (s.gridSize - 1) ^ 2 then
              some (if sc.player1 > sc.player2 then 1
                else if sc.player2 > sc.player1 then 2 else 0)
            else s1.winner
          currentPlayer := if cb.length = 0 then p.other else p }) := by
  unfold applyMove
  dsimp only
  rw [foldl_awardBox]
  simp only [List.length_append, List.length_map]
  split <;> rfl

theorem applyMove_gridSize (lineType : LineType) (row col : Int) (p : Player)
    (s : GameState) : (applyMove lineType row col p s).2.gridSize = s.gridSize := by
  rw [applyMove_snd]
  exact insertLine_gridSize lineType row col p s

theorem applyMove_horizontalLines (lineType : LineType) (row col : Int) (p : Player)
    (s : GameState) :
    (applyMove lineType row col p s).2.horizontalLines =
      (insertLine lineType row col p s).horizontalLines := by
  rw [applyMove_snd]

theorem applyMove_verticalLines (lineType : LineType) (row col : Int) (p : Player)
    (s : GameState) :
    (applyMove lineType row col p s).2.verticalLines =
      (insertLine lineType row col p s).verticalLines := by
  rw [applyMove_snd]

theorem applyMove_boxes (lineType : LineType) (row col : Int) (p : Player)
    (s : GameState) :
    (applyMove lineType row col p s).2.boxes =
      s.boxes ++ (applyMove lineType row col p s).1.map
        (fun b => { row := b.1, col := b.2, owner := p }) := by
  rw [applyMove_snd, applyMove_fst]
  simp [insertLine_boxes]

theorem applyMove_scores (lineType : LineType) (row col : Int) (p : Player)
    (s : GameState) :
    (applyMove lineType row col p s).2.scores =
      addScoreN s.scores p (applyMove lineType row col p s).1.length := by
  rw [applyMove_snd, applyMove_fst]
  simp [insertLine_scores]

theorem applyMove_currentPlayer (lineType : LineType) (row col : Int) (p : Player)
    (s : GameState) :
    (applyMove lineType row col p s).2.currentPlayer =
      if (applyMove lineType row col p s).1.length = 0 then p.other else p := by
  rw [applyMove_snd, applyMove_fst]

theorem applyMove_gameOver (lineType : LineType) (row col : Int) (p : Player)
    (s : GameState) :
    (applyMove lineType row col p s).2.gameOver =
      (if ((s.boxes.length + (applyMove lineType row col p s).1.length : Nat) : Int) =
          (s.gridSize - 1) ^ 2 then true
        else s.gameOver) := by
  rw [applyMove_snd, applyMove_fst]
  simp [insertLine_boxes, insertLine_gameOver]

theorem applyMove_winner (lineType : LineType) (row col : Int) (p : Player)
    (s : GameState) :
    (applyMove lineType row col p s).2.winner =
      (if ((s.boxes.length + (applyMove lineType row col p s).1.length : Nat) : Int) =
          (s.gridSize - 1) ^ 2 then
        some (if (applyMove lineType row col p s).2.scores.player1 >
              (applyMove lineType row col p s).2.scores.player2 then 1
          else if (applyMove lineType row col p s).2.scores.player2 >
              (applyMove lineType row col p s).2.scores.player1 then 2
          else 0)
      else s.winner) := by
  rw [applyMove_scores, applyMove_snd, applyMove_fst]
  simp [insertLine_boxes, insertLine_scores, insertLine_winner]

/-!
## A pigeonhole fact for box keys
-/

/-- A duplicate-free list of integer pairs inside the `M × M` box that has
`M * M` elements contains every pair of that box. -/
theorem mem_of_nodup_of_range_of_full {L : List (Int × Int)} {M : Nat}
    (hnd : L.Nodup)
    (hmem : ∀ x ∈ L, 0 ≤ x.1 ∧ x.1 < (M : Int) ∧ 0 ≤ x.2 ∧ x.2 < (M : Int))
    (hlen : L.length = M * M)
    {a b : Int} (ha₁ : 0 ≤ a) (ha₂ : a < (M : Int)) (hb₁ : 0 ≤ b) (hb₂ : b < (M : Int)) :
    (a, b) ∈ L := by
  classical
  set S : Finset (Int × Int) :=
    (Finset.range M ×ˢ Finset.range M).image (fun q => ((q.1 : Int), (q.2 : Int))) with hS
  have hsub : L.toFinset ⊆ S := by
    intro x hx
    rw [List.mem_toFinset] at hx
    obtain ⟨h₁, h₂, h₃, h₄⟩ := hmem x hx
    rw [hS, Finset.mem_image]
    refine ⟨(x.1.toNat, x.2.toNat), ?_, ?_⟩
    · rw [Finset.mem_product, Finset.mem_range, Finset.mem_range]
      omega
    · have e₁ : ((x.1.toNat : Int)) = x.1 := Int.toNat_of_nonneg h₁
      have e₂ : ((x.2.toNat : Int)) = x.2 := Int.toNat_of_nonneg h₃
      simp [e₁, e₂]
  have hinj : Set.InjOn (fun q : Nat × Nat => ((q.1 : Int), (q.2 : Int)))
      ((Finset.range M ×ˢ Finset.range M) : Finset (Nat × Nat)) := by
    intro u _ v _ huv
    simp only [Prod.mk.injEq, Nat.cast_inj] at huv
    exact Prod.ext huv.1 huv.2
  have hScard : S.card = M * M := by
    rw [hS, Finset.card_image_of_injOn hinj, Finset.card_product, Finset.card_range]
  have heq : L.toFinset = S := by
    apply Finset.eq_of_subset_of_card_le hsub
    rw [hScard, List.toFinset_card_of_nodup hnd, hlen]
  have hmemS : (a, b) ∈ S := by
    rw [hS, Finset.mem_image]
    refine ⟨(a.toNat, b.toNat), ?_, ?_⟩
    · rw [Finset.mem_product, Finset.mem_range, Finset.mem_range]
      omega
    · have e₁ : ((a.toNat : Int)) = a := Int.toNat_of_nonneg ha₁
      have e₂ : ((b.toNat : Int)) = b := Int.toNat_of_nonneg hb₁
      simp [e₁, e₂]
  rw [← heq, List.mem_toFinset] at hmemS
  exact hmemS

/-!
## The reachability invariant
-/

/-- Keys `(row, col)` of the completed-box list. -/
def boxKeyList (boxes : List Box) : List (Int × Int) :=
  boxes.map fun b => (b.row, b.col)

/-- Invariant of every state reachable by validated moves on an `N × N`
board (`N ≥ 2`): distinct map keys, boxes recorded once each, in range and
actually complete, the score tally, the game-over criterion and the winner
discipline. -/
structure GameInv (N : Int) (s : GameState) : Prop where
  grid : s.gridSize = N
  hKeysNodup : (LineMap.keyList s.horizontalLines).Nodup
  vKeysNodup : (LineMap.keyList s.verticalLines).Nodup
  boxKeysNodup : (boxKeyList s.boxes).Nodup
  boxRange : ∀ b ∈ s.boxes, 0 ≤ b.row ∧ b.row < N - 1 ∧ 0 ≤ b.col ∧ b.col < N - 1
  boxComplete : ∀ b ∈ s.boxes, isBoxComplete b.row b.col s = true
  scoreSum : s.boxes.length = s.scores.player1 + s.scores.player2
  overIff : s.gameOver = true ↔ (s.boxes.length : Int) = (N - 1) ^ 2
  winnerNone : s.gameOver = false → s.winner = none
  winnerSet : s.gameOver = true →
    s.winner = some (if s.scores.player1 > s.scores.player2 then 1
      else if s.scores.player2 > s.scores.player1 then 2 else 0)

theorem inv_init {N : Int} (hN : 2 ≤ N) : GameInv N (createGameState N) := by
  have hpos : (0 : Int) < (N - 1) ^ 2 := by
    rw [pow_two]
    have h1 : (0 : Int) < N - 1 := by omega
    exact mul_pos h1 h1
  refine ⟨rfl, ?_, ?_, ?_, ?_, ?_, rfl, ?_, fun _ => rfl, ?_⟩
  · simp [LineMap.keyList, createGameState]
  · simp [LineMap.keyList, createGameState]
  · simp [boxKeyList, createGameState]
  · intro b hb
    simp [createGameState] at hb
  · intro b hb
    simp [createGameState] at hb
  · constructor
    · intro h
      exact absurd h (by simp [createGameState])
    · intro h
      simp [createGameState] at h
      omega
  · intro h
    exact absurd h (by simp [createGameState])

/-- `isBoxComplete` reads only the two line maps. -/
theorem isBoxComplete_congr_maps {s t : GameState} (br bc : Int)
    (hh : s.horizontalLines = t.horizontalLines) (hv : s.verticalLines = t.verticalLines) :
    isBoxComplete br bc s = isBoxComplete br bc t := by
  unfold isBoxComplete
  rw [hh, hv]

/-- Drawing one more line never un-completes a box. -/
theorem isBoxComplete_insertLine_mono {br bc : Int} {s : GameState}
    (lineType : LineType) (row col : Int) (p : Player)
    (h : isBoxComplete br bc s = true) :
    isBoxComplete br bc (insertLine lineType row col p s) = true := by
  unfold isBoxComplete at h ⊢
  simp only [Bool.and_eq_true] at h ⊢
  obtain ⟨⟨⟨h₁, h₂⟩, h₃⟩, h₄⟩ := h
  cases lineType <;>
    simp [insertLine, LineMap.hasKey_setKey_of_hasKey, h₁, h₂, h₃, h₄]

/-!
## Full board: once every box is complete, no move validates
-/

/-- On a full board (every box claimed), every in-range box is complete. -/
theorem all_boxes_complete_of_full {N : Int} {s : GameState} (inv : GameInv N s)
    (hN : 2 ≤ N) (hfull : (s.boxes.length : Int) = (N - 1) ^ 2) :
    ∀ a b : Int, 0 ≤ a → a < N - 1 → 0 ≤ b → b < N - 1 →
      isBoxComplete a b s = true := by
  intro a b ha₁ ha₂ hb₁ hb₂
  set M := (N - 1).toNat with hM
  have hMI : ((M : Nat) : Int) = N - 1 := Int.toNat_of_nonneg (by omega)
  have hmem : ∀ x ∈ boxKeyList s.boxes,
      0 ≤ x.1 ∧ x.1 < (M : Int) ∧ 0 ≤ x.2 ∧ x.2 < (M : Int) := by
    intro x hx
    obtain ⟨bx, hbx, rfl⟩ := List.mem_map.mp hx
    have hr := inv.boxRange bx hbx
    refine ⟨hr.1, ?_, hr.2.2.1, ?_⟩ <;> rw [hMI] <;> [exact hr.2.1; exact hr.2.2.2]
  have hlen : (boxKeyList s.boxes).length = M * M := by
    have hl : (boxKeyList s.boxes).length = s.boxes.length := List.length_map _ _
    have hcast : ((M * M : Nat) : Int) = (N - 1) ^ 2 := by
      push_cast
      rw [hMI, pow_two]
    omega
  have hab : (a, b) ∈ boxKeyList s.boxes := by
    apply mem_of_nodup_of_range_of_full inv.boxKeysNodup hmem hlen ha₁ ?_ hb₁ ?_ <;>
      rw [hMI] <;> [exact ha₂; exact hb₂]
  obtain ⟨bx, hbx, hxe⟩ := List.mem_map.mp hab
  have hcomp := inv.boxComplete bx hbx
  have h₁ : bx.row = a := congrArg Prod.fst hxe
  have h₂ : bx.col = b := congrArg Prod.snd hxe
  rw [h₁, h₂] at hcomp
  exact hcomp

/-- On a full board no move validates: every in-range line is one of the
bounding lines of some in-range box, and all of those are drawn. -/
theorem full_no_valid_move {N : Int} {s : GameState} (inv : GameInv N s)
    (hN : 2 ≤ N) (hfull : (s.boxes.length : Int) = (N - 1) ^ 2)
    (lineType : LineType) (row col : Int) :
    isValidMove lineType row col s = false := by
  by_contra hcontra
  rw [Bool.not_eq_false] at hcontra
  have hcover := all_boxes_complete_of_full inv hN hfull
  cases lineType with
  | horizontal =>
      obtain ⟨habs, h₁, h₂, h₃, h₄⟩ := (isValidMove_horizontal_iff row col s).mp hcontra
      rw [inv.grid] at h₂ h₄
      by_cases hr : row < N - 1
      · have hc := hcover row col h₁ hr h₃ h₄
        unfold isBoxComplete at hc
        simp only [Bool.and_eq_true] at hc
        rw [hc.1.1.1] at habs
        cases habs
      · have hc := hcover (row - 1) col (by omega) (by omega) h₃ h₄
        unfold isBoxComplete at hc
        simp only [Bool.and_eq_true] at hc
        have he : row - 1 + 1 = row := by omega
        rw [he] at hc
        rw [hc.1.1.2] at habs
        cases habs
  | vertical =>
      obtain ⟨habs, h₁, h₂, h₃, h₄⟩ := (isValidMove_vertical_iff row col s).mp hcontra
      rw [inv.grid] at h₂ h₄
      by_cases hc' : col < N - 1
      · have hc := hcover row col h₁ h₂ h₃ hc'
        unfold isBoxComplete at hc
        simp only [Bool.and_eq_true] at hc
        rw [hc.1.2] at habs
        cases habs
      · have hc := hcover row (col - 1) h₁ h₂ (by omega) (by omega)
        unfold isBoxComplete at hc
        simp only [Bool.and_eq_true] at hc
        have he : col - 1 + 1 = col := by omega
        rw [he] at hc
        rw [hc.2] at habs
        cases habs

/-!
## Preservation of the invariant by validated moves
-/

theorem inv_step {N : Int} {s : GameState} (inv : GameInv N s) (hN : 2 ≤ N)
    {lineType : LineType} {row col : Int}
    (hv : isValidMove lineType row col s = true) (p : Player) :
    GameInv N (applyMove lineType row col p s).2 := by
  have hGO : s.gameOver = false := by
    cases hgo : s.gameOver
    · rfl
    · have hfull := inv.overIff.mp hgo
      have hno := full_no_valid_move inv hN hfull lineType row col
      rw [hno] at hv
      cases hv
  have hcb_mem : ∀ b ∈ (applyMove lineType row col p s).1,
      b ∈ getAdjacentBoxes lineType row col s.gridSize ∧
        isBoxComplete b.1 b.2 (insertLine lineType row col p s) = true := by
    intro b hb
    rw [applyMove_fst] at hb
    unfold checkCompletedBoxes at hb
    rw [List.mem_filter, insertLine_gridSize] at hb
    exact ⟨hb.1, hb.2⟩
  have hcb_nodup : (applyMove lineType row col p s).1.Nodup := by
    rw [applyMove_fst]
    unfold checkCompletedBoxes
    exact (getAdjacentBoxes_nodup lineType row col _).filter _
  have hnotold : ∀ b ∈ (applyMove lineType row col p s).1,
      (b.1, b.2) ∉ boxKeyList s.boxes := by
    intro b hb hmem
    have hadj := (hcb_mem b hb).1
    have hnc := adjacent_not_complete hv b hadj
    obtain ⟨bx, hbx, hxe⟩ := List.mem_map.mp hmem
    have hcomp := inv.boxComplete bx hbx
    have h₁ : bx.row = b.1 := congrArg Prod.fst hxe
    have h₂ : bx.col = b.2 := congrArg Prod.snd hxe
    rw [h₁, h₂, hnc] at hcomp
    cases hcomp
  have hboxes := applyMove_boxes lineType row col p s
  have hkeys : boxKeyList (applyMove lineType row col p s).2.boxes =
      boxKeyList s.boxes ++ (applyMove lineType row col p s).1 := by
    rw [hboxes]
    unfold boxKeyList
    rw [List.map_append, List.map_map]
    congr 1
    have hcomp : ((fun (b : Box) => (b.row, b.col)) ∘
        fun (x : Int × Int) => ({ row := x.1, col := x.2, owner := p } : Box)) = id := by
      funext x
      rfl
    rw [hcomp, List.map_id]
  refine ⟨?_, ?_, ?_, ?_, ?_, ?_, ?_, ?_, ?_, ?_⟩
  · rw [applyMove_gridSize]
    exact inv.grid
  · rw [applyMove_horizontalLines]
    cases lineType with
    | horizontal => exact LineMap.keyList_nodup_setKey (row, col) p inv.hKeysNodup
    | vertical => exact inv.hKeysNodup
  · rw [applyMove_verticalLines]
    cases lineType with
    | horizontal => exact inv.vKeysNodup
    | vertical => exact LineMap.keyList_nodup_setKey (row, col) p inv.vKeysNodup
  · rw [hkeys, List.nodup_append]
    exact ⟨inv.boxKeysNodup, hcb_nodup, fun a ha hacb => hnotold a hacb ha⟩
  · intro b hb
    rw [hboxes, List.mem_append] at hb
    rcases hb with hb | hb
    · exact inv.boxRange b hb
    · obtain ⟨x, hx, rfl⟩ := List.mem_map.mp hb
      have hr := mem_getAdjacentBoxes_range hv (hcb_mem x hx).1
      rw [inv.grid] at hr
      exact hr
  · intro b hb
    have hcongr : isBoxComplete b.row b.col (applyMove lineType row col p s).2 =
        isBoxComplete b.row b.col (insertLine lineType row col p s) :=
      isBoxComplete_congr_maps b.row b.col
        (applyMove_horizontalLines lineType row col p s)
        (applyMove_verticalLines lineType row col p s)
    rw [hcongr]
    rw [hboxes, List.mem_append] at hb
    rcases hb with hb | hb
    · exact isBoxComplete_insertLine_mono lineType row col p (inv.boxComplete b hb)
    · obtain ⟨x, hx, rfl⟩ := List.mem_map.mp hb
      exact (hcb_mem x hx).2
  · rw [hboxes, applyMove_scores, List.length_append, List.length_map, addScoreN_sum,
      ← inv.scoreSum]
  · rw [applyMove_gameOver, hGO, hboxes, inv.grid]
    simp only [List.length_append, List.length_map]
    split <;> rename_i hC <;> push_cast at hC <;> simp [hC]
  · intro hgo
    rw [applyMove_gameOver, hGO] at hgo
    rw [applyMove_winner]
    split at hgo
    · cases hgo
    · rename_i hC
      rw [if_neg hC]
      exact inv.winnerNone hGO
  · intro hgo
    rw [applyMove_gameOver, hGO] at hgo
    rw [applyMove_winner]
    split at hgo
    · rename_i hC
      rw [if_pos hC]
    · cases hgo

/-- Every state reachable by validated moves on an `N × N` board with
`N ≥ 2` satisfies the invariant. -/
theorem reachable_gameInv {N : Int} {s : GameState} (hN : 2 ≤ N)
    (h : Reachable N s) : GameInv N s := by
  induction h with
  | init => exact inv_init hN
  | step lineType row col p _ hv ih => exact inv_step ih hN hv p

/-- Map keys stay duplicate-free along any reachable play (any grid size). -/
theorem reachable_keyLists_nodup {N : Int} {s : GameState} (h : Reachable N s) :
    (LineMap.keyList s.horizontalLines).Nodup ∧
      (LineMap.keyList s.verticalLines).Nodup := by
  induction h with
  | init =>
      constructor <;> simp [createGameState, LineMap.keyList]
  | step lineType row col p _ hv ih =>
      constructor
      · rw [applyMove_horizontalLines]
        cases lineType with
        | horizontal => exact LineMap.keyList_nodup_setKey (row, col) p ih.1
        | vertical => exact ih.1
      · rw [applyMove_verticalLines]
        cases lineType with
        | horizontal => exact ih.2
        | vertical => exact LineMap.keyList_nodup_setKey (row, col) p ih.2

/-!
## The claimed properties
-/

/-- C9: for every `N ≥ 2`, `createGameState(N)` has both edge maps empty, no
boxes, `currentPlayer = 1`, both scores 0, `gameOver = false` and `winner`
unset (`null`). -/
theorem createGameState_initial (N : Int) (hN : 2 ≤ N) :
    (createGameState N).horizontalLines = [] ∧
    (createGameState N).verticalLines = [] ∧
    (createGameState N).boxes = [] ∧
    (createGameState N).currentPlayer = .one ∧
    (createGameState N).scores.player1 = 0 ∧
    (createGameState N).scores.player2 = 0 ∧
    (createGameState N).gameOver = false ∧
    (createGameState N).winner = none :=
  ⟨rfl, rfl, rfl, rfl, rfl, rfl, rfl, rfl⟩

theorem createGameState_initial_witness :
    (2 : Int) ≤ 3 ∧
    ((createGameState 3).horizontalLines = [] ∧
      (createGameState 3).verticalLines = [] ∧
      (createGameState 3).boxes = [] ∧
      (createGameState 3).currentPlayer = .one ∧
      (createGameState 3).scores.player1 = 0 ∧
      (createGameState 3).scores.player2 = 0 ∧
      (createGameState 3).gameOver = false ∧
      (createGameState 3).winner = none) :=
  ⟨by decide, createGameState_initial 3 (by decide)⟩

/-- C7: `isValidMove` returns true exactly when the coordinates are in range
for the line type and the line is not already drawn, and it never reads
`currentPlayer`. -/
theorem isValidMove_spec (s : GameState) (row col : Int) :
    (isValidMove .horizontal row col s = true ↔
      (0 ≤ row ∧ row < s.gridSize ∧ 0 ≤ col ∧ col < s.gridSize - 1 ∧
        LineMap.hasKey s.horizontalLines (row, col) = false)) ∧
    (isValidMove .vertical row col s = true ↔
      (0 ≤ row ∧ row < s.gridSize - 1 ∧ 0 ≤ col ∧ col < s.gridSize ∧
        LineMap.hasKey s.verticalLines (row, col) = false)) ∧
    (∀ (lineType : LineType) (p : Player),
      isValidMove lineType row col { s with currentPlayer := p } =
        isValidMove lineType row col s) := by
  refine ⟨?_, ?_, fun lineType p => isValidMove_ignores_currentPlayer lineType row col s p⟩
  · rw [isValidMove_horizontal_iff]
    tauto
  · rw [isValidMove_vertical_iff]
    tauto

/-- C1 as stated is false: a move applied for actor player 2 on the fresh
3×3 state completes zero boxes, yet `currentPlayer` does not toggle — it was
1 before and is still 1 after (the turn is derived from the actor argument,
not from the prior `currentPlayer`). -/
theorem applyMove_turn_counterexample :
    (applyMove .horizontal 0 0 .two (createGameState 3)).1 = [] ∧
    (createGameState 3).currentPlayer = .one ∧
    (applyMove .horizontal 0 0 .two (createGameState 3)).2.currentPlayer = .one := by
  decide

/-- C1 amended: when the actor passed to `applyMove` is the state's current
player, `currentPlayer` toggles to the other player on a zero-box move and is
unchanged when at least one box was completed. -/
theorem applyMove_turn_rule (lineType : LineType) (row col : Int) (s : GameState)
    (p : Player) (hp : p = s.currentPlayer) :
    ((applyMove lineType row col p s).1 = [] →
      (applyMove lineType row col p s).2.currentPlayer = s.currentPlayer.other) ∧
    ((applyMove lineType row col p s).1 ≠ [] →
      (applyMove lineType row col p s).2.currentPlayer = s.currentPlayer) := by
  subst hp
  constructor
  · intro h
    rw [applyMove_currentPlayer, h]
    simp
  · intro h
    rw [applyMove_currentPlayer]
    rw [if_neg (by simpa [List.length_eq_zero] using h)]

theorem applyMove_turn_rule_witness :
    Player.one = (createGameState 3).currentPlayer ∧
    (((applyMove .horizontal 0 0 .one (createGameState 3)).1 = [] →
        (applyMove .horizontal 0 0 .one (createGameState 3)).2.currentPlayer =
          (createGameState 3).currentPlayer.other) ∧
      ((applyMove .horizontal 0 0 .one (createGameState 3)).1 ≠ [] →
        (applyMove .horizontal 0 0 .one (createGameState 3)).2.currentPlayer =
          (createGameState 3).currentPlayer)) :=
  ⟨rfl, applyMove_turn_rule .horizontal 0 0 (createGameState 3) .one rfl⟩

/-- C10: after `applyMove` with actor `p`, `currentPlayer` equals `p` when a
box was completed and the other player of `p` when none was, and both the
returned boxes and the resulting `currentPlayer` are independent of the
prior `currentPlayer`. -/
theorem applyMove_turn_from_actor (lineType : LineType) (row col : Int) (p : Player)
    (s : GameState) (q : Player) :
    ((applyMove lineType row col p s).2.currentPlayer =
      if (applyMove lineType row col p s).1 = [] then p.other else p) ∧
    (applyMove lineType row col p { s with currentPlayer := q }).1 =
      (applyMove lineType row col p s).1 ∧
    (applyMove lineType row col p { s with currentPlayer := q }).2.currentPlayer =
      (applyMove lineType row col p s).2.currentPlayer := by
  have hsame : (applyMove lineType row col p { s with currentPlayer := q }).1 =
      (applyMove lineType row col p s).1 := by
    rw [applyMove_fst, applyMove_fst]
    cases lineType <;> rfl
  refine ⟨?_, hsame, ?_⟩
  · rw [applyMove_currentPlayer]
    by_cases h : (applyMove lineType row col p s).1 = []
    · simp [h]
    · have hl : (applyMove lineType row col p s).1.length ≠ 0 := by
        simpa [List.length_eq_zero] using h
      simp [h, hl]
  · rw [applyMove_currentPlayer, applyMove_currentPlayer, hsame]

/-- C3: on every reachable state, `boxes.length` equals
`scores.player1 + scores.player2`, and every single `applyMove` call
preserves that equality. -/
theorem boxes_length_eq_score_sum :
    (∀ (N : Int) (s : GameState), Reachable N s →
      s.boxes.length = s.scores.player1 + s.scores.player2) ∧
    (∀ (lineType : LineType) (row col : Int) (p : Player) (s : GameState),
      s.boxes.length = s.scores.player1 + s.scores.player2 →
      (applyMove lineType row col p s).2.boxes.length =
        (applyMove lineType row col p s).2.scores.player1 +
          (applyMove lineType row col p s).2.scores.player2) := by
  have hpres : ∀ (lineType : LineType) (row col : Int) (p : Player) (s : GameState),
      s.boxes.length = s.scores.player1 + s.scores.player2 →
      (applyMove lineType row col p s).2.boxes.length =
        (applyMove lineType row col p s).2.scores.player1 +
          (applyMove lineType row col p s).2.scores.player2 := by
    intro lineType row col p s h
    rw [applyMove_boxes, applyMove_scores, List.length_append, List.length_map,
      addScoreN_sum, ← h]
  refine ⟨?_, hpres⟩
  intro N s hr
  induction hr with
  | init => rfl
  | step lineType row col p _ hv ih => exact hpres lineType row col p _ ih

theorem boxes_length_eq_score_sum_witness :
    (createGameState 3).boxes.length =
      (createGameState 3).scores.player1 + (createGameState 3).scores.player2 :=
  boxes_length_eq_score_sum.1 3 (createGameState 3) Reachable.init

/-- C2: after any validated `applyMove` on a reachable state of an `N ≥ 2`
board, `gameOver` is true iff `boxes.length = (N-1)²`; when that count is
reached the winner is 1 / 2 / 0 by score comparison, and before `gameOver`
the winner is unset. -/
theorem applyMove_gameOver_winner (N : Int) (s : GameState) (lineType : LineType)
    (row col : Int) (p : Player) (hN : 2 ≤ N) (hs : Reachable N s)
    (hv : isValidMove lineType row col s = true) :
    ((applyMove lineType row col p s).2.gameOver = true ↔
      (((applyMove lineType row col p s).2.boxes.length : Nat) : Int) = (N - 1) ^ 2) ∧
    ((((applyMove lineType row col p s).2.boxes.length : Nat) : Int) = (N - 1) ^ 2 →
      (applyMove lineType row col p s).2.winner =
        some (if (applyMove lineType row col p s).2.scores.player1 >
              (applyMove lineType row col p s).2.scores.player2 then 1
          else if (applyMove lineType row col p s).2.scores.player2 >
              (applyMove lineType row col p s).2.scores.player1 then 2
          else 0)) ∧
    ((applyMove lineType row col p s).2.gameOver = false →
      (applyMove lineType row col p s).2.winner = none) := by
  have inv : GameInv N (applyMove lineType row col p s).2 :=
    inv_step (reachable_gameInv hN hs) hN hv p
  exact ⟨inv.overIff, fun h => inv.winnerSet (inv.overIff.mpr h), inv.winnerNone⟩

theorem applyMove_gameOver_winner_witness :
    (2 : Int) ≤ 2 ∧ isValidMove .horizontal 0 0 (createGameState 2) = true ∧
    (((applyMove .horizontal 0 0 .one (createGameState 2)).2.gameOver = true ↔
        (((applyMove .horizontal 0 0 .one (createGameState 2)).2.boxes.length : Nat) : Int) =
          ((2 : Int) - 1) ^ 2) ∧
      ((((applyMove .horizontal 0 0 .one (createGameState 2)).2.boxes.length : Nat) : Int) =
          ((2 : Int) - 1) ^ 2 →
        (applyMove .horizontal 0 0 .one (createGameState 2)).2.winner =
          some (if (applyMove .horizontal 0 0 .one (createGameState 2)).2.scores.player1 >
                (applyMove .horizontal 0 0 .one (createGameState 2)).2.scores.player2 then 1
            else if (applyMove .horizontal 0 0 .one (createGameState 2)).2.scores.player2 >
                (applyMove .horizontal 0 0 .one (createGameState 2)).2.scores.player1 then 2
            else 0)) ∧
      ((applyMove .horizontal 0 0 .one (createGameState 2)).2.gameOver = false →
        (applyMove .horizontal 0 0 .one (createGameState 2)).2.winner = none)) :=
  ⟨by decide, by decide,
    applyMove_gameOver_winner 2 (createGameState 2) .horizontal 0 0 .one (by decide)
      Reachable.init (by decide)⟩

/-- C4: on every reachable state, deserializing the serialized state gives
back the state, and re-serializing reproduces the serialized form. -/
theorem serialize_roundtrip (N : Int) (x : GameState) (hx : Reachable N x) :
    deserializeGameState (serializeGameState x) = x ∧
    serializeGameState (deserializeGameState (serializeGameState x)) =
      serializeGameState x := by
  obtain ⟨h1, h2⟩ := reachable_keyLists_nodup hx
  have hde : deserializeGameState (serializeGameState x) = x := by
    unfold deserializeGameState serializeGameState
    dsimp only
    rw [mapOfEntries_eq_self h1, mapOfEntries_eq_self h2]
  exact ⟨hde, by rw [hde]⟩

theorem serialize_roundtrip_witness :
    deserializeGameState (serializeGameState (createGameState 3)) = createGameState 3 ∧
    serializeGameState (deserializeGameState (serializeGameState (createGameState 3))) =
      serializeGameState (createGameState 3) :=
  serialize_roundtrip 3 (createGameState 3) Reachable.init

/-- C5: on a guest `move` message the host applies a valid move with actor
player 2 and replies `moveResult{success: true}` carrying the serialized
resulting state and the completed boxes; an invalid move leaves the host's
state untouched and is answered `moveResult{success: false}` carrying the
serialized unchanged state. -/
theorem host_move_message_spec (lineType : LineType) (row col : Int) (s : GameState) :
    (isValidMove lineType row col s = true →
      hostHandleMoveMessage lineType row col s =
        ((applyMove lineType row col .two s).2,
          .moveResult true (serializeGameState (applyMove lineType row col .two s).2)
            (some (applyMove lineType row col .two s).1))) ∧
    (isValidMove lineType row col s = false →
      hostHandleMoveMessage lineType row col s =
        (s, .moveResult false (serializeGameState s) none)) := by
  constructor
  · intro h
    unfold hostHandleMoveMessage
    rw [if_pos h]
  · intro h
    unfold hostHandleMoveMessage
    rw [if_neg (by simp [h])]

theorem host_move_message_spec_witness :
    isValidMove .horizontal 0 0 (createGameState 3) = true ∧
    hostHandleMoveMessage .horizontal 0 0 (createGameState 3) =
      ((applyMove .horizontal 0 0 .two (createGameState 3)).2,
        .moveResult true
          (serializeGameState (applyMove .horizontal 0 0 .two (createGameState 3)).2)
          (some (applyMove .horizontal 0 0 .two (createGameState 3)).1)) :=
  ⟨by decide, (host_move_message_spec .horizontal 0 0 (createGameState 3)).1 (by decide)⟩

/-- C6: a guest `handleMove` call never changes the guest's local state, and
it emits a `move` request to the host exactly when the game is not over, it
is the guest's turn, and the move is valid — rejected inputs produce no
network message. -/
theorem guest_handleMove_spec (lineType : LineType) (row col : Int) (s : GameState) :
    (guestHandleMove lineType row col s).1 = s ∧
    (∀ msg : NetMessage,
      (guestHandleMove lineType row col s).2 = .sendMoveRequest msg ↔
        (s.gameOver = false ∧ s.currentPlayer = .two ∧
          isValidMove lineType row col s = true ∧ msg = .moveRequest lineType row col)) := by
  constructor
  · unfold guestHandleMove
    split
    · rfl
    · split
      · rfl
      · split
        · rfl
        · rfl
  · intro msg
    unfold guestHandleMove
    by_cases h1 : s.gameOver = true
    · simp [h1]
    · rw [Bool.not_eq_true] at h1
      by_cases h2 : s.currentPlayer = Player.two
      · by_cases h3 : isValidMove lineType row col s = true
        · simp [h1, h2, h3, eq_comm]
        · simp [h1, h2, h3]
      · simp [h1, h2]

/-- C8: `applyMove` returns exactly the candidate boxes adjacent to the new
line — for a horizontal line at (r,c): box (r-1,c) if r>0 then box (r,c) if
r<N-1; for a vertical line: box (r,c-1) if c>0 then box (r,c) if c<N-1 —
whose four bounding lines are all present once the line is inserted, in that
order, and appends them to `boxes` in the same order with owner = player. -/
theorem applyMove_completedBoxes_spec (lineType : LineType) (row col : Int)
    (p : Player) (s : GameState) :
    (applyMove lineType row col p s).1 =
      (match lineType with
        | .horizontal =>
            (if 0 < row then [(row - 1, col)] else []) ++
              (if row < s.gridSize - 1 then [(row, col)] else [])
        | .vertical =>
            (if 0 < col then [(row, col - 1)] else []) ++
              (if col < s.gridSize - 1 then [(row, col)] else [])).filter
        (fun b =>
          LineMap.hasKey (insertLine lineType row col p s).horizontalLines (b.1, b.2) &&
            LineMap.hasKey (insertLine lineType row col p s).horizontalLines
              (b.1 + 1, b.2) &&
            LineMap.hasKey (insertLine lineType row col p s).verticalLines (b.1, b.2) &&
            LineMap.hasKey (insertLine lineType row col p s).verticalLines
              (b.1, b.2 + 1)) ∧
    (applyMove lineType row col p s).2.boxes =
      s.boxes ++ (applyMove lineType row col p s).1.map
        (fun b => { row := b.1, col := b.2, owner := p }) := by
  refine ⟨?_, applyMove_boxes lineType row col p s⟩
  rw [applyMove_fst]
  unfold checkCompletedBoxes
  rw [insertLine_gridSize]
  cases lineType <;> rfl
